import Mathlib

/-!
# Verification of the `jdb` file-backed document store

Shallow embedding of the Go package `jdb` (a minimal JSON document store
keeping one file per record under `<root>/<collection>/<key>.json`).

The filesystem is modelled as an association list from path strings to
entries (regular file with content, or directory).  Path arithmetic mirrors
Go's `path/filepath`: `goClean` models `filepath.Clean` (drops empty and `.`
segments, resolves `..`), `goJoin` models `filepath.Join` (joins the
non-empty parts with `/` and cleans the result).

The driver operations `New`, `Write`, `Read`, `ReadAll`, `Update`, `Delete`
are translated statement by statement from the source.  The per-collection
mutexes and the logger are omitted: the claims under study are about the
sequential filesystem semantics, and neither the lock registry nor logging
affects the returned values or the resulting filesystem state of a single
operation.  JSON serialization is delegated (as in the source, which calls
`encoding/json`) to a `Codec` parameter providing `marshalIndent`.

Fault injection: `doWriteF` takes a `WriteFault` selecting where an I/O
failure strikes (temp-file write or rename), and `doDeleteF` takes a flag
making the swallowed `os.RemoveAll` call fail; with `WriteFault.noFault`
(resp. `false`) the definitions are the plain translations of `doWrite`
(resp. `doDelete`).
-/

namespace Jdb

/-- On-disk entry: a regular file with its byte content, or a directory. -/
inductive Entry where
  | file (content : String)
  | dir
deriving DecidableEq, Repr

/-- The filesystem: an association list from path strings to entries. -/
abbrev FS := List (String × Entry)

/-- Look up the entry bound to path `p` (first binding wins). -/
def fsFind : FS → String → Option Entry
  | [], _ => none
  | (q, e) :: fs, p => if q = p then some e else fsFind fs p

/-- Drop every binding of path `p`. -/
def fsErase : FS → String → FS
  | [], _ => []
  | (q, e) :: fs, p => if q = p then fsErase fs p else (q, e) :: fsErase fs p

/-- Bind path `p` to entry `e`, replacing any previous binding. -/
def fsSet (fs : FS) (p : String) (e : Entry) : FS := (p, e) :: fsErase fs p

/-- `listStarts pre l` is true when `pre` is an initial run of `l`. -/
def listStarts : List Char → List Char → Bool
  | [], _ => true
  | _ :: _, [] => false
  | a :: as, b :: bs => a = b && listStarts as bs

/-- `strStarts s pre` : does string `s` start with `pre`? -/
def strStarts (s pre : String) : Bool := listStarts pre.data s.data

/-- Split a character list at every `/`. -/
def splitSlashChars : List Char → List (List Char)
  | [] => [[]]
  | c :: cs =>
    if c = '/' then [] :: splitSlashChars cs
    else
      match splitSlashChars cs with
      | [] => [[c]]
      | t :: ts => (c :: t) :: ts

/-- Split a path string into its `/`-separated segments. -/
def splitSlash (s : String) : List (List Char) := splitSlashChars s.data

/-- The segment `.` as a character list. -/
def dotSeg : List Char := ['.']

/-- The segment `..` as a character list. -/
def dotDotSeg : List Char := ['.', '.']

/-- Core of `filepath.Clean`: process segments left to right, dropping empty
and `.` segments and resolving `..` against the accumulator (a `..` at an
absolute root disappears, a leading `..` of a relative path is kept). -/
def cleanSegsAux (isAbs : Bool) : List (List Char) → List (List Char) → List (List Char)
  | [], acc => acc.reverse
  | s :: ss, acc =>
    if s = [] ∨ s = dotSeg then cleanSegsAux isAbs ss acc
    else if s = dotDotSeg then
      match acc with
      | [] => if isAbs then cleanSegsAux isAbs ss [] else cleanSegsAux isAbs ss [dotDotSeg]
      | t :: ts =>
        if t = dotDotSeg then cleanSegsAux isAbs ss (dotDotSeg :: t :: ts)
        else cleanSegsAux isAbs ss ts
    else cleanSegsAux isAbs ss (s :: acc)

/-- Join segments with `/`. -/
def joinSegs : List (List Char) → List Char
  | [] => []
  | [s] => s
  | s :: rest => s ++ '/' :: joinSegs rest

/-- Model of Go `filepath.Clean` (for `/`-separated paths). -/
def goClean (p : String) : String :=
  let isAbs := strStarts p "/"
  let segs := cleanSegsAux isAbs (splitSlash p) []
  if isAbs then
    if segs = [] then "/" else String.mk ('/' :: joinSegs segs)
  else
    if segs = [] then "." else String.mk (joinSegs segs)

/-- Model of Go `filepath.Join`: join the non-empty parts with `/` and clean
the result; all-empty input yields the empty string. -/
def goJoin (parts : List String) : String :=
  match parts.filter (fun s => s ≠ "") with
  | [] => ""
  | ne => goClean (String.mk (joinSegs (ne.map String.data)))

/-- Errors returned by the driver, mirroring the Go error values: the
`fmt.Errorf` validation messages, `os` not-exist / is-a-directory /
not-a-directory path errors, `doDelete`'s "unable to find directory" error,
and a generic injected I/O failure. -/
inductive JdbError where
  | invalidArg (msg : String)
  | notExist (path : String)
  | isDir (path : String)
  | notDir (path : String)
  | unableToFind (path : String)
  | ioError
deriving DecidableEq, Repr

/-- The path together with its ancestors, innermost last: the directories
`os.MkdirAll` walks (e.g. `a/b/c ↦ [a, a/b, a/b/c]`). -/
def chainAcc (acc : List Char) : List (List Char) → List String
  | [] => []
  | s :: ss =>
    let q := if acc = [] then s else acc ++ '/' :: s
    String.mk q :: chainAcc q ss

/-- The directory chain `os.MkdirAll p` creates, outermost first. -/
def dirChain (p : String) : List String :=
  let segs := (splitSlash p).filter (fun s => !s.isEmpty && s ≠ dotSeg)
  if strStarts p "/" then (chainAcc [] segs).map (fun q => "/" ++ q)
  else chainAcc [] segs

/-- Walk a directory chain, creating missing directories and failing with
`ENOTDIR` on a regular file in the chain (as `os.MkdirAll` does). -/
def mkdirSteps : FS → List String → Except JdbError FS
  | fs, [] => .ok fs
  | fs, q :: qs =>
    match fsFind fs q with
    | some .dir => mkdirSteps fs qs
    | some (.file _) => .error (.notDir q)
    | none => mkdirSteps (fsSet fs q .dir) qs

/-- Model of `os.MkdirAll` (partial creation before a failure is not
modelled; no claim depends on the filesystem left by a failed MkdirAll). -/
def mkdirAll (fs : FS) (p : String) : Except JdbError FS := mkdirSteps fs (dirChain p)

/-- The source's `stat` helper: `os.Stat(path)`, falling back to
`os.Stat(path + ".json")` when the bare path does not exist. -/
def stat (fs : FS) (p : String) : Except JdbError Entry :=
  match fsFind fs p with
  | some e => .ok e
  | none =>
    match fsFind fs (p ++ ".json") with
    | some e => .ok e
    | none => .error (.notExist (p ++ ".json"))

/-- Model of `ioutil.ReadFile`. -/
def readFile (fs : FS) (p : String) : Except JdbError String :=
  match fsFind fs p with
  | some (.file b) => .ok b
  | some .dir => .error (.isDir p)
  | none => .error (.notExist p)

/-- Model of `ioutil.WriteFile` (fails with `EISDIR` on a directory). -/
def writeFile (fs : FS) (p b : String) : Except JdbError FS :=
  match fsFind fs p with
  | some .dir => .error (.isDir p)
  | _ => .ok (fsSet fs p (.file b))

/-- Model of `os.Rename`: fails if the source is missing or the target is a
directory; otherwise atomically moves the source entry onto the target. -/
def rename (fs : FS) (o n : String) : Except JdbError FS :=
  match fsFind fs o with
  | none => .error (.notExist o)
  | some e =>
    match fsFind fs n with
    | some .dir => .error (.isDir n)
    | _ => .ok (fsSet (fsErase fs o) n e)

/-- Model of `os.RemoveAll`: drop the entry at `p` and the whole subtree
under it; removing a missing path is a no-op (and no error), as in Go. -/
def removeAllFs (fs : FS) (p : String) : FS :=
  fs.filter (fun qe => !(qe.1 = p || strStarts qe.1 (p ++ "/")))

/-- The name of `q` as a direct child of directory `dir`, if it is one. -/
def childName (dir q : String) : Option String :=
  if strStarts q (dir ++ "/") then
    let rest := q.data.drop (dir.data.length + 1)
    if rest.isEmpty || rest.contains '/' then none else some (String.mk rest)
  else none

/-- Byte-order comparison on characters. -/
def charLt (a b : Char) : Bool := a.toNat < b.toNat

/-- Lexicographic byte-order comparison on names. -/
def nameLt : List Char → List Char → Bool
  | [], [] => false
  | [], _ :: _ => true
  | _ :: _, [] => false
  | a :: as, b :: bs => charLt a b || (a = b && nameLt as bs)

/-- Insert into a sorted list of names. -/
def insertSorted (s : String) : List String → List String
  | [] => [s]
  | t :: ts => if nameLt s.data t.data then s :: t :: ts else t :: insertSorted s ts

/-- Sort names in ascending byte order, as `ioutil.ReadDir` does. -/
def sortNames (l : List String) : List String := l.foldr insertSorted []

/-- Model of `ioutil.ReadDir`: the sorted names of the direct children of a
directory; fails on a regular file or a missing path. -/
def readDir (fs : FS) (p : String) : Except JdbError (List String) :=
  match fsFind fs p with
  | some .dir => .ok (sortNames ((fs.map Prod.fst).filterMap (childName p)))
  | some (.file _) => .error (.notDir p)
  | none => .error (.notExist p)

/-- The driver: its root directory.  The mutex registry and the logger of
the Go `Driver` struct carry no filesystem-visible state. -/
structure Driver where
  dir : String
deriving DecidableEq, Repr

/-- The structured-encoding collaborator: `json.MarshalIndent(v, "", "\t")`
abstracted as a serializer that may fail (encode failure). -/
structure Codec (V : Type) where
  marshalIndent : V → Except JdbError String

/-- Where an injected I/O failure strikes inside `doWrite`: nowhere, at the
temp-file write (leaving arbitrary junk bytes at the temp path), or at the
rename. -/
inductive WriteFault where
  | noFault
  | atTmpWrite (junk : String)
  | atRename
deriving DecidableEq, Repr

/-- Translation of `Driver.doWrite`, with an injectable fault point.  The
source computes `dir`, `fnlPath = dir/ID.json`, `tmpPath = fnlPath.tmp`,
then runs MkdirAll, MarshalIndent, appends a newline, writes the temp file
and renames it onto the final path, returning `ID` together with the first
error (or none). -/
def doWriteF {V : Type} (cdc : Codec V) (d : Driver) (fault : WriteFault) (fs : FS)
    (collection ID : String) (v : V) : (String × Option JdbError) × FS :=
  let dir := goJoin [d.dir, collection]
  let fnlPath := goJoin [dir, ID ++ ".json"]
  let tmpPath := fnlPath ++ ".tmp"
  match mkdirAll fs dir with
  | .error e => ((ID, some e), fs)
  | .ok fs1 =>
    match cdc.marshalIndent v with
    | .error e => ((ID, some e), fs1)
    | .ok s =>
      let b := s ++ "\n"
      match fault with
      | .atTmpWrite junk => ((ID, some .ioError), fsSet fs1 tmpPath (.file junk))
      | _ =>
        match writeFile fs1 tmpPath b with
        | .error e => ((ID, some e), fs1)
        | .ok fs2 =>
          match fault with
          | .atRename => ((ID, some .ioError), fs2)
          | _ =>
            match rename fs2 tmpPath fnlPath with
            | .error e => ((ID, some e), fs2)
            | .ok fs3 => ((ID, none), fs3)

/-- `Driver.doWrite` (the fault-free instance). -/
def doWrite {V : Type} (cdc : Codec V) (d : Driver) (fs : FS)
    (collection ID : String) (v : V) : (String × Option JdbError) × FS :=
  doWriteF cdc d .noFault fs collection ID v

/-- Translation of `Driver.Write` (argument validation, then `doWrite`),
with the fault point threaded through. -/
def WriteF {V : Type} (cdc : Codec V) (d : Driver) (fault : WriteFault) (fs : FS)
    (collection identifier : String) (v : V) : (String × Option JdbError) × FS :=
  if collection = "" then
    (("", some (.invalidArg "missing collection, no place to save data")), fs)
  else if identifier = "" then
    (("", some (.invalidArg "missing identifier")), fs)
  else doWriteF cdc d fault fs collection identifier v

/-- `Driver.Write` (the fault-free instance). -/
def Write {V : Type} (cdc : Codec V) (d : Driver) (fs : FS)
    (collection identifier : String) (v : V) : (String × Option JdbError) × FS :=
  WriteF cdc d .noFault fs collection identifier v

/-- Translation of `Driver.Read`: validate the arguments, probe the record
with the `stat` helper, then read `record + ".json"` (note: the literal
record path with `".json"` appended, whichever probe succeeded). -/
def Read (d : Driver) (fs : FS) (collection identifier : String) :
    Except JdbError String :=
  if collection = "" then .error (.invalidArg "missing collection, no place to get data")
  else if identifier = "" then .error (.invalidArg "missing ID, no identifier to get data")
  else
    let record := goJoin [d.dir, collection, identifier]
    match stat fs record with
    | .error e => .error e
    | .ok _ => readFile fs (record ++ ".json")

/-- The read loop of `Driver.ReadAll`: read each listed name in order,
aborting with the first error (Go returns `nil, err` then). -/
def readFiles (fs : FS) (dir : String) : List String → Except JdbError (List String)
  | [] => .ok []
  | n :: ns =>
    match readFile fs (goJoin [dir, n]) with
    | .error e => .error e
    | .ok b =>
      match readFiles fs dir ns with
      | .error e => .error e
      | .ok rest => .ok (b :: rest)

/-- Translation of `Driver.ReadAll`: validate, `stat` the collection
directory, list it, and read every file in listing order. -/
def ReadAll (d : Driver) (fs : FS) (collection : String) :
    Except JdbError (List String) :=
  if collection = "" then .error (.invalidArg "missing collection, no place to get data")
  else
    let dir := goJoin [d.dir, collection]
    match stat fs dir with
    | .error e => .error e
    | .ok _ =>
      match readDir fs dir with
      | .error e => .error e
      | .ok names => readFiles fs dir names

/-- Translation of `Driver.doDelete`, with a flag making the file-removal
call fail.  The source probes `d.dir/collection/ID` with `stat`; on a miss
it errors, on a directory it removes the subtree, on a regular file it
calls `os.RemoveAll(dir + ".json")` and DISCARDS that call's error — the
flag models that removal failing (leaving the filesystem unchanged). -/
def doDeleteF (d : Driver) (removeFails : Bool) (fs : FS) (collection ID : String) :
    Option JdbError × FS :=
  let path := goJoin [collection, ID]
  let dir := goJoin [d.dir, path]
  match stat fs dir with
  | .error _ => (some (.unableToFind path), fs)
  | .ok .dir => (none, removeAllFs fs dir)
  | .ok (.file _) =>
    (none, if removeFails then fs else removeAllFs fs (dir ++ ".json"))

/-- `Driver.doDelete` (removal succeeding). -/
def doDelete (d : Driver) (fs : FS) (collection ID : String) : Option JdbError × FS :=
  doDeleteF d false fs collection ID

/-- Translation of `Driver.Delete` (it just delegates to `doDelete`). -/
def Delete (d : Driver) (fs : FS) (collection ID : String) : Option JdbError × FS :=
  doDelete d fs collection ID

/-- Translation of `Driver.Update`: `doDelete` then, only on success,
`doWrite`; a delete-phase error is returned as is with the caller's ID. -/
def Update {V : Type} (cdc : Codec V) (d : Driver) (fs : FS)
    (collection ID : String) (v : V) : (String × Option JdbError) × FS :=
  match doDelete d fs collection ID with
  | (some e, fs1) => ((ID, some e), fs1)
  | (none, fs1) => doWrite cdc d fs1 collection ID v

/-- Translation of `New`: clean the root path; if `os.Stat` finds anything
there (directory or not), return the driver with no error and touch
nothing; otherwise create the directory chain.  Logger installation is
omitted (no filesystem effect). -/
def New (fs : FS) (dir : String) : (Driver × Option JdbError) × FS :=
  let dir := goClean dir
  let driver : Driver := ⟨dir⟩
  match fsFind fs dir with
  | some _ => ((driver, none), fs)
  | none =>
    match mkdirAll fs dir with
    | .ok fs1 => ((driver, none), fs1)
    | .error e => ((driver, some e), fs)

/-! ## Sample fixtures used by the witness theorems -/

/-- A concrete structured-encoding collaborator over `Bool`, serializing as
JSON booleans do. -/
def sampleCodec : Codec Bool := ⟨fun b => .ok (if b then "true" else "false")⟩

/-- The matching decoder (tolerating the trailing newline the store adds),
inverse to `sampleCodec.marshalIndent` followed by the newline append. -/
def sampleDec : String → Option Bool := fun s =>
  if s = "true\n" then some true else if s = "false\n" then some false else none

/-- A driver rooted at `db`. -/
def drv : Driver := ⟨"db"⟩

/-- A filesystem holding just the root directory. -/
def fsRoot : FS := [("db", Entry.dir)]

/-- A filesystem holding one committed record `db/users/42.json`. -/
def fsUsers : FS :=
  [("db", Entry.dir), ("db/users", Entry.dir), ("db/users/42.json", Entry.file "X")]

/-- A filesystem whose `users` collection holds one readable record and one
subdirectory (which `ReadFile` cannot read). -/
def fsList : FS :=
  [("db", Entry.dir), ("db/users", Entry.dir), ("db/users/sub", Entry.dir),
   ("db/users/a.json", Entry.file "A")]

/-- The filesystem produced by writing record `42 ↦ true` into `fsRoot`. -/
def fsW : FS :=
  [("db/users/42.json", Entry.file ("true" ++ "\n")), ("db/users", Entry.dir),
   ("db", Entry.dir)]

/-! ## Helper lemmas -/

theorem fsFind_fsSet_self (fs : FS) (p : String) (e : Entry) :
    fsFind (fsSet fs p e) p = some e := by
  simp [fsSet, fsFind]

theorem fsFind_fsErase_ne (fs : FS) (p q : String) (h : p ≠ q) :
    fsFind (fsErase fs p) q = fsFind fs q := by
  induction fs with
  | nil => rfl
  | cons x fs ih =>
    obtain ⟨r, e⟩ := x
    by_cases hr : r = p
    · subst hr
      have hq : ¬ r = q := h
      simp [fsErase, fsFind, hq, ih]
    · simp only [fsErase, if_neg hr]
      by_cases hq : r = q
      · simp [fsFind, hq]
      · simp [fsFind, hq, ih]

theorem fsFind_fsSet_ne (fs : FS) (p q : String) (e : Entry) (h : p ≠ q) :
    fsFind (fsSet fs p e) q = fsFind fs q := by
  simp only [fsSet, fsFind, if_neg h]
  exact fsFind_fsErase_ne fs p q h

theorem fsFind_removeAllFs (fs : FS) (p q : String) :
    fsFind (removeAllFs fs p) q =
      if q = p ∨ strStarts q (p ++ "/") = true then none else fsFind fs q := by
  induction fs with
  | nil => simp [removeAllFs, fsFind]
  | cons x fs ih =>
    obtain ⟨r, e⟩ := x
    simp only [removeAllFs, List.filter] at ih ⊢
    by_cases hr : (r = p ∨ strStarts r (p ++ "/") = true)
    · have : (!(decide (r = p) || strStarts r (p ++ "/"))) = false := by
        rcases hr with h1 | h1 <;> simp [h1]
      rw [this]
      by_cases hq : (q = p ∨ strStarts q (p ++ "/") = true)
      · simp only [if_pos hq] at ih ⊢
        exact ih
      · have hrq : ¬ r = q := by
          intro he
          exact hq (he ▸ hr)
        simp only [if_neg hq] at ih ⊢
        rw [ih, fsFind]
        simp [hrq]
    · have : (!(decide (r = p) || strStarts r (p ++ "/"))) = true := by
        push_neg at hr
        simp [hr.1, hr.2]
      rw [this]
      by_cases hq : (q = p ∨ strStarts q (p ++ "/") = true)
      · have hrq : ¬ r = q := by
          intro he
          exact hr (he ▸ hq)
        simp only [if_pos hq] at ih ⊢
        rw [fsFind, if_neg hrq]
        exact ih
      · simp only [if_neg hq] at ih ⊢
        by_cases hrq : r = q
        · simp only [fsFind, if_pos hrq]
        · simp only [fsFind, if_neg hrq]
          exact ih

theorem strAppend_ne (s t : String) (h : t.data ≠ []) : s ++ t ≠ s := by
  intro he
  have h2 : (s ++ t).data = s.data := congrArg String.data he
  rw [String.data_append] at h2
  have h3 := congrArg List.length h2
  simp at h3
  exact h (List.eq_nil_of_length_eq_zero h3)

/-- `mkdirSteps` never disturbs an existing binding: afterwards every path
is bound as before, or was unbound and is now a fresh directory. -/
theorem mkdirSteps_preserve (l : List String) :
    ∀ (fs fs1 : FS), mkdirSteps fs l = .ok fs1 → ∀ q,
      fsFind fs1 q = fsFind fs q ∨ (fsFind fs q = none ∧ fsFind fs1 q = some .dir) := by
  induction l with
  | nil =>
    intro fs fs1 h q
    simp only [mkdirSteps] at h
    cases h
    exact Or.inl rfl
  | cons p ps ih =>
    intro fs fs1 h q
    simp only [mkdirSteps] at h
    cases hf : fsFind fs p with
    | some e =>
      cases e with
      | dir =>
        rw [hf] at h
        exact ih fs fs1 h q
      | file b =>
        rw [hf] at h
        cases h
    | none =>
      rw [hf] at h
      rcases ih _ _ h q with h1 | h1
      · by_cases hq : p = q
        · subst hq
          rw [fsFind_fsSet_self] at h1
          exact Or.inr ⟨hf, h1⟩
        · rw [fsFind_fsSet_ne fs p q _ hq] at h1
          exact Or.inl h1
      · by_cases hq : p = q
        · subst hq
          rw [fsFind_fsSet_self] at h1
          cases h1.1
        · rw [fsFind_fsSet_ne fs p q _ hq] at h1
          exact Or.inr h1

/-- `os.MkdirAll` form of the preservation lemma. -/
theorem mkdirAll_preserve (fs fs1 : FS) (p : String) (h : mkdirAll fs p = .ok fs1)
    (q : String) :
    fsFind fs1 q = fsFind fs q ∨ (fsFind fs q = none ∧ fsFind fs1 q = some .dir) :=
  mkdirSteps_preserve (dirChain p) fs fs1 h q

theorem writeFile_eq (fs : FS) (p b : String) :
    writeFile fs p b =
      match fsFind fs p with
      | some .dir => .error (.isDir p)
      | _ => .ok (fsSet fs p (.file b)) := rfl

theorem rename_eq (fs : FS) (o n : String) :
    rename fs o n =
      match fsFind fs o with
      | none => .error (.notExist o)
      | some e =>
        match fsFind fs n with
        | some .dir => .error (.isDir n)
        | _ => .ok (fsSet (fsErase fs o) n e) := rfl

theorem readFile_eq (fs : FS) (p : String) :
    readFile fs p =
      match fsFind fs p with
      | some (.file b) => .ok b
      | some .dir => .error (.isDir p)
      | none => .error (.notExist p) := rfl

theorem stat_eq (fs : FS) (p : String) :
    stat fs p =
      match fsFind fs p with
      | some e => .ok e
      | none =>
        match fsFind fs (p ++ ".json") with
        | some e => .ok e
        | none => .error (.notExist (p ++ ".json")) := rfl

/-- Inversion of a successful `Write`: the returned key is the caller's key
and the final path `Join(Join(root, collection), key + ".json")` now holds
the serialized content followed by the appended newline. -/
theorem write_ok_final {V : Type} (cdc : Codec V) (d : Driver) (fs fs1 : FS)
    (c k : String) (v : V) (r s : String)
    (hmar : cdc.marshalIndent v = .ok s)
    (hw : Write cdc d fs c k v = ((r, none), fs1)) :
    r = k ∧
      fsFind fs1 (goJoin [goJoin [d.dir, c], k ++ ".json"]) =
        some (.file (s ++ "\n")) := by
  by_cases hc : c = ""
  · simp [Write, WriteF, hc] at hw
  · by_cases hk : k = ""
    · simp [Write, WriteF, hc, hk] at hw
    · simp only [Write, WriteF, if_neg hc, if_neg hk, doWriteF, hmar] at hw
      cases hm : mkdirAll fs (goJoin [d.dir, c]) with
      | error e =>
        rw [hm] at hw
        simp at hw
      | ok fsA =>
        rw [hm] at hw
        simp only [] at hw
        cases hft : fsFind fsA (goJoin [goJoin [d.dir, c], k ++ ".json"] ++ ".tmp") with
        | some e =>
          cases e with
          | dir =>
            rw [writeFile, hft] at hw
            simp at hw
          | file b0 =>
            rw [writeFile, hft] at hw
            simp only [] at hw
            rw [rename, fsFind_fsSet_self] at hw
            cases hfn : fsFind
                (fsSet fsA (goJoin [goJoin [d.dir, c], k ++ ".json"] ++ ".tmp")
                  (.file (s ++ "\n")))
                (goJoin [goJoin [d.dir, c], k ++ ".json"]) with
            | some e2 =>
              cases e2 with
              | dir =>
                rw [hfn] at hw
                simp at hw
              | file b1 =>
                rw [hfn] at hw
                simp only [Prod.mk.injEq] at hw
                obtain ⟨⟨hr, _⟩, hfs⟩ := hw
                subst hfs
                exact ⟨hr.symm, fsFind_fsSet_self _ _ _⟩
            | none =>
              rw [hfn] at hw
              simp only [Prod.mk.injEq] at hw
              obtain ⟨⟨hr, _⟩, hfs⟩ := hw
              subst hfs
              exact ⟨hr.symm, fsFind_fsSet_self _ _ _⟩
        | none =>
          rw [writeFile, hft] at hw
          simp only [] at hw
          rw [rename, fsFind_fsSet_self] at hw
          cases hfn : fsFind
              (fsSet fsA (goJoin [goJoin [d.dir, c], k ++ ".json"] ++ ".tmp")
                (.file (s ++ "\n")))
              (goJoin [goJoin [d.dir, c], k ++ ".json"]) with
          | some e2 =>
            cases e2 with
            | dir =>
              rw [hfn] at hw
              simp at hw
            | file b1 =>
              rw [hfn] at hw
              simp only [Prod.mk.injEq] at hw
              obtain ⟨⟨hr, _⟩, hfs⟩ := hw
              subst hfs
              exact ⟨hr.symm, fsFind_fsSet_self _ _ _⟩
          | none =>
            rw [hfn] at hw
            simp only [Prod.mk.injEq] at hw
            obtain ⟨⟨hr, _⟩, hfs⟩ := hw
            subst hfs
            exact ⟨hr.symm, fsFind_fsSet_self _ _ _⟩

/-- The `ReadAll` loop returns the error of the first unreadable file. -/
theorem readFiles_first_err (fs : FS) (dir : String) (bad : String)
    (rest : List String) (er : JdbError) :
    ∀ good : List String,
      (∀ n ∈ good, ∃ b, readFile fs (goJoin [dir, n]) = .ok b) →
      readFile fs (goJoin [dir, bad]) = .error er →
      readFiles fs dir (good ++ bad :: rest) = .error er := by
  intro good
  induction good with
  | nil =>
    intro _ hbad
    simp only [List.nil_append, readFiles, hbad]
  | cons g gs ih =>
    intro hgood hbad
    obtain ⟨b, hb⟩ := hgood g (List.mem_cons_self g gs)
    have ihr := ih (fun n hn => hgood n (List.mem_cons_of_mem g hn)) hbad
    simp only [List.cons_append, readFiles, hb]
    rw [List.append_eq, ihr]

/-! ## Claim theorems -/

/-- Claim C1: a `write` that fails after creating the temporary file but
before the rename (temp-file write failure, modelled by
`WriteFault.atTmpWrite junk`, or rename failure, `WriteFault.atRename`)
returns an error, leaves any previously committed record at the final path
`Join(Join(root, collection), key + ".json")` exactly as it was, and never
makes the new content visible under the final name: if the final path was
unbound it stays unbound, except that `os.MkdirAll` may have created a bare
directory there (possible only for keys with `..` segments) — never a file
with the new bytes. -/
theorem C1_write_fault_atomicity {V : Type} (cdc : Codec V) (d : Driver)
    (fault : WriteFault) (fs : FS) (c k : String) (v : V)
    (hf : fault ≠ .noFault) :
    (WriteF cdc d fault fs c k v).1.2.isSome = true ∧
    (∀ e, fsFind fs (goJoin [goJoin [d.dir, c], k ++ ".json"]) = some e →
      fsFind (WriteF cdc d fault fs c k v).2
        (goJoin [goJoin [d.dir, c], k ++ ".json"]) = some e) ∧
    (fsFind fs (goJoin [goJoin [d.dir, c], k ++ ".json"]) = none →
      fsFind (WriteF cdc d fault fs c k v).2
          (goJoin [goJoin [d.dir, c], k ++ ".json"]) = none ∨
        fsFind (WriteF cdc d fault fs c k v).2
          (goJoin [goJoin [d.dir, c], k ++ ".json"]) = some .dir) := by
  have key : (WriteF cdc d fault fs c k v).1.2.isSome = true ∧
      (fsFind (WriteF cdc d fault fs c k v).2
          (goJoin [goJoin [d.dir, c], k ++ ".json"]) =
        fsFind fs (goJoin [goJoin [d.dir, c], k ++ ".json"]) ∨
        (fsFind fs (goJoin [goJoin [d.dir, c], k ++ ".json"]) = none ∧
          fsFind (WriteF cdc d fault fs c k v).2
            (goJoin [goJoin [d.dir, c], k ++ ".json"]) = some .dir)) := by
    by_cases hc : c = ""
    · simp [WriteF, hc]
    · by_cases hk : k = ""
      · simp [WriteF, hc, hk]
      · simp only [WriteF, if_neg hc, if_neg hk, doWriteF]
        cases hm : mkdirAll fs (goJoin [d.dir, c]) with
        | error e => simp
        | ok fsA =>
          have hpres :=
            mkdirAll_preserve fs fsA _ hm (goJoin [goJoin [d.dir, c], k ++ ".json"])
          cases hmar : cdc.marshalIndent v with
          | error e => simpa using hpres
          | ok s =>
            cases fault with
            | noFault => exact absurd rfl hf
            | atTmpWrite junk =>
              simp only []
              refine ⟨rfl, ?_⟩
              rw [fsFind_fsSet_ne _ _ _ _ (strAppend_ne _ ".tmp" (by decide))]
              exact hpres
            | atRename =>
              simp only []
              cases hft : fsFind fsA
                  (goJoin [goJoin [d.dir, c], k ++ ".json"] ++ ".tmp") with
              | some e =>
                cases e with
                | dir =>
                  rw [writeFile_eq, hft]
                  simpa using hpres
                | file b0 =>
                  rw [writeFile_eq, hft]
                  simp only []
                  refine ⟨rfl, ?_⟩
                  rw [fsFind_fsSet_ne _ _ _ _ (strAppend_ne _ ".tmp" (by decide))]
                  exact hpres
              | none =>
                rw [writeFile_eq, hft]
                simp only []
                refine ⟨rfl, ?_⟩
                rw [fsFind_fsSet_ne _ _ _ _ (strAppend_ne _ ".tmp" (by decide))]
                exact hpres
  refine ⟨key.1, ?_, ?_⟩
  · intro e he
    rcases key.2 with h1 | h1
    · rw [h1, he]
    · rw [he] at h1
      exact absurd h1.1 (by simp)
  · intro he
    rcases key.2 with h1 | h1
    · exact Or.inl (h1.trans he)
    · exact Or.inr h1.2

/-- Witness for C1 at a concrete input: rename fails while overwriting
record `42` of `fsUsers`; the call errors and the committed content `X` is
still bound at the final path. -/
theorem C1_write_fault_atomicity_witness :
    (WriteF sampleCodec drv .atRename fsUsers "users" "42" false).1.2.isSome = true ∧
    fsFind (WriteF sampleCodec drv .atRename fsUsers "users" "42" false).2
      (goJoin [goJoin [drv.dir, "users"], "42" ++ ".json"]) = some (.file "X") :=
  ⟨(C1_write_fault_atomicity sampleCodec drv .atRename fsUsers "users" "42" false
      (by decide)).1,
   (C1_write_fault_atomicity sampleCodec drv .atRename fsUsers "users" "42" false
      (by decide)).2.1 (.file "X") (by decide)⟩

/-- Counterexample to claim C2 as stated: for the non-empty key `"."` a
write succeeds (it stores `db/users/..json`), but the subsequent read
resolves the cleaned path `db/users` via the bare-path probe and then fails
reading `db/users.json`; the round trip does not hold for every non-empty
key. -/
theorem C2_roundtrip_cex :
    (Write sampleCodec drv fsRoot "users" "." true).1.2 = none ∧
    Read drv (Write sampleCodec drv fsRoot "users" "." true).2 "users" "." =
      .error (.notExist "db/users.json") := by
  exact ⟨rfl, rfl⟩

/-- Claim C2, amended: the claim holds for every serializable value and
every (collection, key) for which path cleaning commutes with appending the
`.json` extension to the key — in particular for every key whose final path
segment is an ordinary name (not `.` or `..`, no trailing slash games).  A
successful write followed by a read of the same key returns exactly the
serialized content plus newline, and any decoder satisfying the
collaborator's round-trip contract recovers a value equal to `v`. -/
theorem C2_roundtrip_amended {V : Type} (cdc : Codec V) (dec : String → Option V)
    (d : Driver) (fs fs1 : FS) (c k : String) (v : V) (s : String)
    (hmar : cdc.marshalIndent v = .ok s)
    (hkey : goJoin [d.dir, c, k] ++ ".json" = goJoin [goJoin [d.dir, c], k ++ ".json"])
    (hw : Write cdc d fs c k v = ((k, none), fs1))
    (hdec : dec (s ++ "\n") = some v) :
    Read d fs1 c k = .ok (s ++ "\n") ∧ dec (s ++ "\n") = some v := by
  have hc : c ≠ "" := by
    intro h
    rw [Write, WriteF, if_pos h] at hw
    simp at hw
  have hk : k ≠ "" := by
    intro h
    rw [Write, WriteF, if_neg hc, if_pos h] at hw
    simp at hw
  obtain ⟨-, hfind⟩ := write_ok_final cdc d fs fs1 c k v k s hmar hw
  refine ⟨?_, hdec⟩
  simp only [Read, if_neg hc, if_neg hk]
  cases hrec : fsFind fs1 (goJoin [d.dir, c, k]) with
  | some e =>
    rw [stat_eq, hrec]
    simp only []
    rw [hkey, readFile_eq, hfind]
  | none =>
    rw [stat_eq, hrec, hkey, hfind]
    simp only []
    rw [readFile_eq, hfind]

/-- Witness for the amended C2: writing `true` under key `42` into `fsRoot`
yields `fsW`, and reading it back returns `"true\n"`, which the sample
decoder maps back to `true`. -/
theorem C2_roundtrip_witness :
    Read drv fsW "users" "42" = .ok ("true" ++ "\n") ∧
    sampleDec ("true" ++ "\n") = some true :=
  C2_roundtrip_amended sampleCodec sampleDec drv fsRoot fsW "users" "42" true "true"
    rfl (by decide) (by decide) (by decide)

/-- Claim C3 evaluated on the code (code bug): with the record stored at
`db/users/42.json`, reading the bare key `42` succeeds, but reading the
extension-suffixed key `42.json` fails — the `stat` probe resolves the bare
path, yet `Read` then unconditionally reads `record + ".json"`, i.e.
`db/users/42.json.json`.  Likewise `delete("users","42.json")` reports
success while removing nothing (it removes `db/users/42.json.json`, which
does not exist), whereas `delete("users","42")` does remove the record. -/
theorem C3_extension_suffix_divergence :
    Read drv fsUsers "users" "42" = .ok "X" ∧
    Read drv fsUsers "users" "42.json" = .error (.notExist "db/users/42.json.json") ∧
    Delete drv fsUsers "users" "42.json" = (none, fsUsers) ∧
    Delete drv fsUsers "users" "42" =
      (none, [("db", Entry.dir), ("db/users", Entry.dir)]) := by
  exact ⟨rfl, rfl, rfl, rfl⟩

/-- Claim C4: `update` on a (collection, key) whose resolved target path is
bound to nothing (neither bare nor with the `.json` extension — no existing
record) returns the delete phase's not-found error with the caller's key
and the filesystem unchanged: no file is created and the write phase's
output never appears (the returned state and error are exactly those of the
failed delete phase, so `doWrite` was not reached). -/
theorem C4_update_missing {V : Type} (cdc : Codec V) (d : Driver) (fs : FS)
    (c k : String) (v : V)
    (h1 : fsFind fs (goJoin [d.dir, goJoin [c, k]]) = none)
    (h2 : fsFind fs (goJoin [d.dir, goJoin [c, k]] ++ ".json") = none) :
    Update cdc d fs c k v = ((k, some (.unableToFind (goJoin [c, k]))), fs) := by
  rw [Update]
  rw [show doDelete d fs c k = (some (.unableToFind (goJoin [c, k])), fs) from ?_]
  · rw [doDelete, doDeleteF, stat_eq, h1, h2]

/-- Witness for C4: updating the missing key `77` of the empty store fails
with the not-found error and leaves the filesystem untouched. -/
theorem C4_update_missing_witness :
    Update sampleCodec drv fsRoot "users" "77" true =
      (("77", some (.unableToFind (goJoin ["users", "77"]))), fsRoot) :=
  C4_update_missing sampleCodec drv fsRoot "users" "77" true (by decide) (by decide)

/-- Counterexample to claim C5 as stated: `delete` performs no
empty-argument validation.  `delete("users","")` on a store holding the
collection `users` returns success (no invalid-argument error) and removes
the whole collection directory — a filesystem mutation. -/
theorem C5_empty_args_cex :
    Delete drv fsUsers "users" "" = (none, [("db", Entry.dir)]) ∧
    fsUsers ≠ [("db", Entry.dir)] := by
  exact ⟨rfl, by decide⟩

/-- Claim C5, amended: only `Write` and `Read` validate their arguments;
with an empty collection or an empty key each fails with an
invalid-argument error and performs no filesystem mutation (`Write` returns
the input state unchanged; `Read` never mutates).  `Delete` and `Update`
perform no such validation (an empty key makes delete target the collection
directory itself, and update inherits delete's behavior). -/
theorem C5_empty_args_amended {V : Type} (cdc : Codec V) (d : Driver) (fs : FS)
    (c k : String) (v : V) (h : c = "" ∨ k = "") :
    (∃ m, Write cdc d fs c k v = (("", some (.invalidArg m)), fs)) ∧
    (∃ m, Read d fs c k = .error (.invalidArg m)) := by
  by_cases hc : c = ""
  · exact ⟨⟨"missing collection, no place to save data", by rw [Write, WriteF, if_pos hc]⟩,
      ⟨"missing collection, no place to get data", by rw [Read, if_pos hc]⟩⟩
  · have hk : k = "" := by
      rcases h with h | h
      · exact absurd h hc
      · exact h
    exact ⟨⟨"missing identifier", by rw [Write, WriteF, if_neg hc, if_pos hk]⟩,
      ⟨"missing ID, no identifier to get data", by rw [Read, if_neg hc, if_pos hk]⟩⟩

/-- Witness for the amended C5 at the concrete input (collection `""`,
key `x`): both write and read fail with invalid-argument and the write
leaves the filesystem unchanged. -/
theorem C5_empty_args_witness :
    (∃ m, Write sampleCodec drv fsRoot "" "x" true = (("", some (.invalidArg m)), fsRoot)) ∧
    (∃ m, Read drv fsRoot "" "x" = .error (.invalidArg m)) :=
  C5_empty_args_amended sampleCodec drv fsRoot "" "x" true (Or.inl rfl)

/-- Claim C6: when `d.dir/users` is a directory, `delete("users","")`
resolves it (`Join("users","")` cleans to `users`) and removes the whole
subtree: the call succeeds, the directory binding and every path under it
are gone, and a subsequent `readAll("users")` fails with a not-found error
(either from the `stat` probe or from listing the now-missing directory). -/
theorem C6_collection_delete (d : Driver) (fs : FS)
    (hdir : fsFind fs (goJoin [d.dir, "users"]) = some .dir) :
    (Delete d fs "users" "").1 = none ∧
    fsFind (Delete d fs "users" "").2 (goJoin [d.dir, "users"]) = none ∧
    (∀ q, strStarts q (goJoin [d.dir, "users"] ++ "/") = true →
      fsFind (Delete d fs "users" "").2 q = none) ∧
    (∃ p, ReadAll d (Delete d fs "users" "").2 "users" = .error (.notExist p)) := by
  have hjoin : goJoin ["users", ""] = "users" := rfl
  have hdel : Delete d fs "users" "" = (none, removeAllFs fs (goJoin [d.dir, "users"])) := by
    rw [Delete, doDelete, doDeleteF, hjoin, stat_eq, hdir]
  rw [hdel]
  have hgone : fsFind (removeAllFs fs (goJoin [d.dir, "users"])) (goJoin [d.dir, "users"]) =
      none := by
    rw [fsFind_removeAllFs, if_pos (Or.inl rfl)]
  refine ⟨rfl, hgone, ?_, ?_⟩
  · intro q hq
    rw [fsFind_removeAllFs, if_pos (Or.inr hq)]
  · rw [ReadAll]
    simp only [if_neg (by decide : ¬("users" : String) = "")]
    cases hjs : fsFind (removeAllFs fs (goJoin [d.dir, "users"]))
        (goJoin [d.dir, "users"] ++ ".json") with
    | some e =>
      refine ⟨goJoin [d.dir, "users"], ?_⟩
      rw [stat_eq, hgone, hjs]
      simp only []
      rw [readDir, hgone]
    | none =>
      refine ⟨goJoin [d.dir, "users"] ++ ".json", ?_⟩
      rw [stat_eq, hgone, hjs]

/-- Witness for C6: deleting the whole `users` collection of `fsUsers`
succeeds, unbinds the directory and the record beneath it, and makes
`readAll` fail with not-found. -/
theorem C6_collection_delete_witness :
    (Delete drv fsUsers "users" "").1 = none ∧
    fsFind (Delete drv fsUsers "users" "").2 (goJoin [drv.dir, "users"]) = none ∧
    fsFind (Delete drv fsUsers "users" "").2 "db/users/42.json" = none ∧
    (∃ p, ReadAll drv (Delete drv fsUsers "users" "").2 "users" = .error (.notExist p)) :=
  ⟨(C6_collection_delete drv fsUsers (by decide)).1,
   (C6_collection_delete drv fsUsers (by decide)).2.1,
   (C6_collection_delete drv fsUsers (by decide)).2.2.1 "db/users/42.json" (by decide),
   (C6_collection_delete drv fsUsers (by decide)).2.2.2⟩

/-- Claim C7: a successful `write(collection, key, value)` stores, at the
final path `Join(Join(root, collection), key + ".json")` (the cleaned form
of `<root>/<collection>/<key>.json`), the indented serialization of the
value followed by the single appended newline, and returns the caller's key
as the resolved key. -/
theorem C7_write_result {V : Type} (cdc : Codec V) (d : Driver) (fs fs1 : FS)
    (c k : String) (v : V) (r s : String)
    (hmar : cdc.marshalIndent v = .ok s)
    (hw : Write cdc d fs c k v = ((r, none), fs1)) :
    r = k ∧
      fsFind fs1 (goJoin [goJoin [d.dir, c], k ++ ".json"]) =
        some (.file (s ++ "\n")) :=
  write_ok_final cdc d fs fs1 c k v r s hmar hw

/-- Witness for C7: writing `true` under key `42` into `fsRoot` returns key
`42` and stores `"true\n"` at `db/users/42.json`. -/
theorem C7_write_result_witness :
    ("42" : String) = "42" ∧
    fsFind fsW (goJoin [goJoin [drv.dir, "users"], "42" ++ ".json"]) =
      some (.file ("true" ++ "\n")) :=
  C7_write_result sampleCodec drv fsRoot fsW "users" "42" true "42" "true"
    rfl (by decide)

/-- Claim C8: `readAll` (a) fails with an invalid-argument error when the
collection is empty; (b) fails with a not-found error when the collection
directory does not exist (whether the `stat` probe misses entirely, or the
stray `.json` fallback lets the probe pass and the directory listing then
fails with not-found); (c) aborts at the first unreadable listed file,
returning exactly that file's error and no partial results. -/
theorem C8_readAll_errors :
    (∀ (d : Driver) (fs : FS),
      ReadAll d fs "" = .error (.invalidArg "missing collection, no place to get data")) ∧
    (∀ (d : Driver) (fs : FS) (c : String), c ≠ "" →
      fsFind fs (goJoin [d.dir, c]) = none →
      ∃ p, ReadAll d fs c = .error (.notExist p)) ∧
    (∀ (d : Driver) (fs : FS) (c : String) (e : Entry) (names good : List String)
        (bad : String) (rest : List String) (er : JdbError), c ≠ "" →
      stat fs (goJoin [d.dir, c]) = .ok e →
      readDir fs (goJoin [d.dir, c]) = .ok names →
      names = good ++ bad :: rest →
      (∀ n ∈ good, ∃ b, readFile fs (goJoin [goJoin [d.dir, c], n]) = .ok b) →
      readFile fs (goJoin [goJoin [d.dir, c], bad]) = .error er →
      ReadAll d fs c = .error er) := by
  refine ⟨?_, ?_, ?_⟩
  · intro d fs
    rw [ReadAll, if_pos rfl]
  · intro d fs c hc h1
    rw [ReadAll]
    simp only [if_neg hc]
    cases h2 : fsFind fs (goJoin [d.dir, c] ++ ".json") with
    | some e =>
      refine ⟨goJoin [d.dir, c], ?_⟩
      rw [stat_eq, h1, h2]
      simp only []
      rw [readDir, h1]
    | none =>
      refine ⟨goJoin [d.dir, c] ++ ".json", ?_⟩
      rw [stat_eq, h1, h2]
  · intro d fs c e names good bad rest er hc hstat hrd hsplit hgood hbad
    rw [ReadAll]
    simp only [if_neg hc]
    rw [hstat]
    simp only []
    rw [hrd]
    simp only []
    rw [hsplit]
    exact readFiles_first_err fs (goJoin [d.dir, c]) bad rest er good hgood hbad

/-- Witness for C8: the three failure modes at concrete inputs — empty
collection name, missing `nope` collection, and a `users` listing whose
second entry is a subdirectory that `ReadFile` cannot read. -/
theorem C8_readAll_errors_witness :
    ReadAll drv fsList "" = .error (.invalidArg "missing collection, no place to get data") ∧
    (∃ p, ReadAll drv fsRoot "nope" = .error (.notExist p)) ∧
    ReadAll drv fsList "users" = .error (.isDir "db/users/sub") :=
  ⟨C8_readAll_errors.1 drv fsList,
   C8_readAll_errors.2.1 drv fsRoot "nope" (by decide) (by decide),
   C8_readAll_errors.2.2 drv fsList "users" .dir ["a.json", "sub"] ["a.json"] "sub" []
     (.isDir "db/users/sub") (by decide) rfl rfl rfl
     (fun n hn => by
       rw [List.mem_singleton] at hn
       subst hn
       exact ⟨"A", rfl⟩)
     rfl⟩

/-- Claim C9: when the delete target resolves (via the `stat` probe) to a
regular file, the operation reports success even if the underlying removal
fails: the source discards the error of `os.RemoveAll(dir + ".json")`, so
with the removal failing (`removeFails = true`, filesystem unchanged) the
caller still sees no error. -/
theorem C9_delete_swallows_removal_error (d : Driver) (fs : FS) (c k x : String)
    (hst : stat fs (goJoin [d.dir, goJoin [c, k]]) = .ok (.file x)) :
    doDeleteF d true fs c k = (none, fs) := by
  rw [doDeleteF, hst]
  rfl

/-- Witness for C9: removing record `42` with the removal failing still
reports success and leaves the store unchanged. -/
theorem C9_delete_swallows_removal_error_witness :
    doDeleteF drv true fsUsers "users" "42" = (none, fsUsers) :=
  C9_delete_swallows_removal_error drv fsUsers "users" "42" "X" rfl

/-- Claim C10: whenever anything already exists at the cleaned root path —
including a regular, non-directory file — `New` succeeds with no error and
creates nothing (the filesystem is returned unchanged), so a root path
colliding with a non-directory is not detected at construction time. -/
theorem C10_new_existing_root (fs : FS) (p : String) (e : Entry)
    (h : fsFind fs (goClean p) = some e) :
    New fs p = ((⟨goClean p⟩, none), fs) := by
  simp only [New, h]

/-- Witness for C10: a regular file sits at the root path `db`; `New`
succeeds and creates nothing. -/
theorem C10_new_existing_root_witness :
    New [("db", Entry.file "oops")] "db" =
      ((⟨goClean "db"⟩, none), [("db", Entry.file "oops")]) :=
  C10_new_existing_root [("db", Entry.file "oops")] "db" (.file "oops") (by decide)

end Jdb
